import Mathlib

/-!
Verification development for the composite-graph data fetcher
(src/fetch_data.py).

The program's pure core is shallowly embedded:
calendar arithmetic (dates are integer day numbers counted from
1970-01-01, as produced by `pd.to_datetime`), automatic frequency
selection (`calculate_optimal_frequency`), resampling with pandas
last-non-null-per-column bucket semantics (`resample_data`), the
normalization step of `fetch_equity_data`, the weighted composite
(`calculate_composite`) and the post-fetch part of `main`.
Prices are modelled as rationals; Python's `round(x, 2)` is modelled
as decimal round-half-to-even to two places.
-/

namespace FetchData

/-- Day number (days since 1970-01-01) of the civil date `y-m-d`.
Standard Gregorian formula over a March-based year; models the day
arithmetic performed by `pd.to_datetime` and `DatetimeIndex`. -/
def daysFromCivil (y m d : Int) : Int :=
  let y2 := if m ≤ 2 then y - 1 else y
  let mp := if m ≤ 2 then m + 9 else m - 3
  365 * y2 + y2 / 4 - y2 / 100 + y2 / 400 + (153 * mp + 2) / 5 + d - 1 - 719468

/-- Day-of-era of a day number: position inside its 400-year Gregorian
cycle (eras start on 0000-03-01, shifted so day 0 is 1970-01-01). -/
def doeOf (z : Int) : Int := (z + 719468) % 146097

/-- Era (400-year Gregorian cycle) index of a day number. -/
def eraOf (z : Int) : Int := (z + 719468) / 146097

/-- Century index (0-3) of a day number inside its era. -/
def cenOf (z : Int) : Int := (4 * doeOf z + 3) / 146097

/-- Day-of-century of a day number. -/
def docOf (z : Int) : Int := doeOf z - 36524 * cenOf z

/-- Year-of-century (March-based, 0-99) of a day number. -/
def yocOf (z : Int) : Int := (4 * docOf z + 3) / 1461

/-- Day-of-year (March-based) of a day number. -/
def doyOf (z : Int) : Int := docOf z - (365 * yocOf z + yocOf z / 4)

/-- Month-of-year (March-based, 0-11) of a day number. -/
def mpOf (z : Int) : Int := (5 * doyOf z + 2) / 153

/-- Absolute (March-based) month index of a day number. -/
def monthIdx (z : Int) : Int :=
  12 * (400 * eraOf z + 100 * cenOf z + yocOf z) + mpOf z

/-- First day number of the March-based month with absolute index `k`. -/
def monthFirst (k : Int) : Int :=
  let y2 := k / 12
  let mp := k % 12
  365 * y2 + y2 / 4 - y2 / 100 + y2 / 400 + (153 * mp + 2) / 5 - 719468

/-- Day number of the last calendar day of the month containing `z`:
the bucket label used by pandas `resample('M')`. -/
def monthEnd (z : Int) : Int := monthFirst (monthIdx z + 1) - 1

/-- Day number of the Sunday on or after `z`: the bucket label used by
pandas `resample('W')` (weeks end on Sunday; day 0 = 1970-01-01 is a
Thursday, so Sundays are the day numbers congruent to 3 mod 7). -/
def weeklyKey (z : Int) : Int := z + (3 - z) % 7

/-- A data row of the JSON payload: the `date` key plus the per-symbol
normalized values present on that date (a Python dict, insertion
ordered; a missing symbol is simply an absent key). -/
structure PricePoint where
  date : Int
  values : List (String × ℚ)
deriving DecidableEq

/-- Value stored under key `k` in an insertion-ordered mapping. -/
def getVal (vs : List (String × ℚ)) (k : String) : Option ℚ :=
  match vs with
  | [] => none
  | kv :: rest => if kv.1 = k then some kv.2 else getVal rest k

/-- Membership test for a key, `k in point`. -/
def hasKey (vs : List (String × ℚ)) (k : String) : Bool :=
  match vs with
  | [] => false
  | kv :: rest => if kv.1 = k then true else hasKey rest k

/-- Python dict assignment `point[k] = v`: overwrite in place if the
key exists, otherwise append the new key at the end. -/
def setKey (vs : List (String × ℚ)) (k : String) (v : ℚ) : List (String × ℚ) :=
  if hasKey vs k then
    vs.map (fun kv => if kv.1 = k then (k, v) else kv)
  else vs ++ [(k, v)]

/-- Python's `round(x, 2)` on the exact value: round to two decimal
places with ties to even. -/
def round2 (x : ℚ) : ℚ :=
  let f : Int := ⌊x * 100⌋
  let r : ℚ := x * 100 - (f : ℚ)
  let n : Int := if 1 / 2 < r then f + 1
                 else if r < 1 / 2 then f
                 else if f % 2 = 0 then f else f + 1
  (n : ℚ) / 100

/-- Append a key if it is not already present. -/
def insertNew (acc : List String) (k : String) : List String :=
  if acc.any (fun c => c == k) then acc else acc ++ [k]

/-- Column order of `pd.DataFrame(data)`: union of the rows' keys in
order of first appearance. -/
def columnsOf (data : List PricePoint) : List String :=
  data.foldl (fun acc p => (p.values.map Prod.fst).foldl insertNew acc) []

/-- Last non-missing value of column `c` among the rows of a bucket:
the per-column semantics of pandas `Resampler.last`. -/
def lastVal (g : List PricePoint) (c : String) : Option ℚ :=
  g.foldl (fun acc p =>
    match getVal p.values c with
    | some v => some v
    | none => acc) none

/-- Group consecutive rows sharing the same bucket key.  For the
date-ascending series this program produces, this is exactly pandas'
partition of the rows into resampling buckets. -/
def groupByKey (f : Int → Int) : List PricePoint → List (Int × List PricePoint)
  | [] => []
  | p :: ps =>
    match groupByKey f ps with
    | [] => [(f p.date, [p])]
    | (k, g) :: rest =>
      if f p.date = k then (f p.date, p :: g) :: rest
      else (f p.date, [p]) :: (k, g) :: rest

/-- One resampling pass: label each bucket with its period-end key,
take each column's last non-missing value, round to 2 decimals, and
drop rows left with no symbol values (`dropna(how='all')` together
with the `len(entry) > 1` check). -/
def resampleWith (f : Int → Int) (data : List PricePoint) : List PricePoint :=
  (groupByKey f data).filterMap (fun kg =>
    let vals := (columnsOf data).filterMap (fun c =>
      (lastVal kg.2 c).map (fun v => (c, round2 v)))
    if vals = [] then none else some ⟨kg.1, vals⟩)

/-- Embedding of `resample_data` (src/fetch_data.py lines 61-102). -/
def resample_data (data : List PricePoint) (frequency : String) : List PricePoint :=
  if frequency = "daily" then data
  else if data = [] then data
  else if frequency = "weekly" then resampleWith weeklyKey data
  else if frequency = "monthly" then resampleWith monthEnd data
  else data

/-- Total weight, `sum(weights.values())`. -/
def totalWeight (weights : List (String × ℚ)) : ℚ :=
  (weights.map Prod.snd).sum

/-- Body of the loop in `calculate_composite`: accumulate
`point[symbol] * (weight / total_weight)` over the weight map, skipping
symbols absent from the point, then store the rounded sum under the
"Composite" key. -/
def addCompositePoint (weights : List (String × ℚ)) (total : ℚ) (p : PricePoint) :
    PricePoint :=
  let composite := weights.foldl (fun acc sw =>
    match getVal p.values sw.1 with
    | some v => acc + v * (sw.2 / total)
    | none => acc) 0
  ⟨p.date, setKey p.values "Composite" (round2 composite)⟩

/-- Embedding of `calculate_composite` (src/fetch_data.py lines
161-183). -/
def calculate_composite (data : List PricePoint) (weights : List (String × ℚ)) :
    List PricePoint :=
  if totalWeight weights = 0 then data
  else data.map (addCompositePoint weights (totalWeight weights))

/-- Truncating division: the effect of Python's `int()` applied to the
exact quotient `a / b` (for the magnitudes a date range can produce,
the float expression `int(days_diff * 252 / 365)` is exact). -/
def intTrunc (a b : Int) : Int := if 0 ≤ a then a / b else -((-a) / b)

/-- A civil calendar date, as parsed from a `YYYY-MM-DD` string. -/
structure Date where
  year : Int
  month : Int
  day : Int
deriving DecidableEq

/-- Embedding of `calculate_optimal_frequency` (src/fetch_data.py lines
32-58).  `estimated_weeks` is the exact value of the float division
`estimated_trading_days / 5`. -/
def calculate_optimal_frequency (start_date end_date : Date) (max_samples : Int) : String :=
  let days_diff := daysFromCivil end_date.year end_date.month end_date.day -
    daysFromCivil start_date.year start_date.month start_date.day
  let estimated_trading_days := intTrunc (days_diff * 252) 365
  let estimated_weeks : ℚ := (estimated_trading_days : ℚ) / 5
  if estimated_trading_days ≤ max_samples then "daily"
  else if estimated_weeks ≤ (max_samples : ℚ) then "weekly"
  else "monthly"

/-- Modelled from the spec's words for the frequency selector: floor of
`days * 252/365` as the trading-day estimate, then the three-way
choice.  Stated for comparison with `calculate_optimal_frequency`. -/
def select_frequency_spec (start_date end_date : Date) (max_samples : Int) : String :=
  let days := daysFromCivil end_date.year end_date.month end_date.day -
    daysFromCivil start_date.year start_date.month start_date.day
  let etd := (days * 252) / 365
  if etd ≤ max_samples then "daily"
  else if (etd : ℚ) / 5 ≤ (max_samples : ℚ) then "weekly"
  else "monthly"

/-- Drop missing closes from one raw column (`series.dropna()`). -/
def dropna (col : List (Int × Option ℚ)) : List (Int × ℚ) :=
  col.filterMap (fun dv => dv.2.map (fun v => (dv.1, v)))

/-- Column of the raw close-price table for a symbol, when present. -/
def rawCol (table : List (String × List (Int × Option ℚ))) (s : String) :
    Option (List (Int × Option ℚ)) :=
  match table with
  | [] => none
  | c :: rest => if c.1 = s then some c.2 else rawCol rest s

/-- Normalized column for a symbol, when present. -/
def normCol (cols : List (String × List (Int × ℚ))) (s : String) :
    Option (List (Int × ℚ)) :=
  match cols with
  | [] => none
  | c :: rest => if c.1 = s then some c.2 else normCol rest s

/-- Value of a column at a date (pandas index alignment lookup). -/
def colAt (col : List (Int × ℚ)) (d : Int) : Option ℚ :=
  match col with
  | [] => none
  | dv :: rest => if dv.1 = d then some dv.2 else colAt rest d

/-- The normalized per-symbol columns built by the loop of
`fetch_equity_data` (lines 136-143): for each requested symbol present
in the raw table whose series is non-empty after dropping missing
closes, divide by the first remaining price and multiply by 100. -/
def normCols (symbols : List String)
    (close_prices : List (String × List (Int × Option ℚ))) :
    List (String × List (Int × ℚ)) :=
  symbols.foldl (fun acc symbol =>
    match rawCol close_prices symbol with
    | none => acc
    | some col =>
      match dropna col with
      | [] => acc
      | (d0, p0) :: rest =>
        acc ++ [(symbol, ((d0, p0) :: rest).map (fun dv => (dv.1, dv.2 / p0 * 100)))]) []

/-- Embedding of the normalization and row-building part of
`fetch_equity_data` (lines 136-153).  Assigning each normalized series
as a new column of the initially empty DataFrame aligns every later
series to the index of the first assigned one, so the output rows
range over the first retained symbol's dates; each row keeps, in
symbol-list order, the symbols whose aligned column has a value on
that date, rounded to 2 decimals. -/
def normalize_data (symbols : List String)
    (close_prices : List (String × List (Int × Option ℚ))) : List PricePoint :=
  match normCols symbols close_prices with
  | [] => []
  | (s0, col0) :: restCols =>
    (col0.map Prod.fst).filterMap (fun d =>
      let vals := symbols.filterMap (fun s =>
        match normCol ((s0, col0) :: restCols) s with
        | none => none
        | some col => (colAt col d).map (fun v => (s, round2 v)))
      if vals = [] then none else some ⟨d, vals⟩)

/-- The JSON object written by `main` (lines 230-239). -/
structure OutputRecord where
  symbols : List String
  weights : List (String × ℚ)
  start_date : Date
  end_date : Date
  data : List PricePoint
deriving DecidableEq

/-- Weight resolution in `main` (lines 217-226): the given weights when
their count matches the symbol count, otherwise equal weights. -/
def resolveWeights (symbols : List String) (w : Option (List ℚ)) : List (String × ℚ) :=
  match w with
  | none => symbols.map (fun s => (s, 100 / (symbols.length : ℚ)))
  | some ws =>
    if ws.length ≠ symbols.length then symbols.map (fun s => (s, 100 / (symbols.length : ℚ)))
    else symbols.zip ws

/-- The post-fetch behavior of `main` (lines 211-239): with an empty
result set it reports and returns early without writing a file
(modelled as `none`); otherwise it resolves weights, computes the
composite and serializes the record. -/
def mainOutput (symbols : List String) (w : Option (List ℚ)) (start_date end_date : Date)
    (data : List PricePoint) : Option OutputRecord :=
  if data = [] then none
  else
    let weights := resolveWeights symbols w
    some ⟨symbols, weights, start_date, end_date, calculate_composite data weights⟩

theorem doe_bounds (z : Int) :
    0 ≤ doeOf z ∧ doeOf z ≤ 146096 ∧ z + 719468 = 146097 * eraOf z + doeOf z := by
  simp only [doeOf, eraOf]
  omega

theorem doc_bounds (z : Int) :
    0 ≤ cenOf z ∧ cenOf z ≤ 3 ∧ 0 ≤ docOf z ∧ docOf z ≤ 36524 ∧
      (cenOf z ≤ 2 → docOf z ≤ 36523) ∧ doeOf z = 36524 * cenOf z + docOf z := by
  have h := doe_bounds z
  simp only [docOf, cenOf]
  omega

theorem yoc_bounds (z : Int) :
    0 ≤ yocOf z ∧ yocOf z ≤ 99 ∧ 365 * yocOf z + yocOf z / 4 ≤ docOf z ∧
      docOf z < 365 * (yocOf z + 1) + (yocOf z + 1) / 4 := by
  have h := doc_bounds z
  simp only [yocOf]
  omega

theorem doy_bounds (z : Int) :
    0 ≤ doyOf z ∧ doyOf z ≤ 365 ∧ (cenOf z ≤ 2 ∧ yocOf z = 99 → doyOf z ≤ 364) ∧
      docOf z = 365 * yocOf z + yocOf z / 4 + doyOf z := by
  have h1 := doc_bounds z
  have h2 := yoc_bounds z
  simp only [doyOf]
  omega

theorem mp_bounds (z : Int) :
    0 ≤ mpOf z ∧ mpOf z ≤ 11 ∧ (153 * mpOf z + 2) / 5 ≤ doyOf z ∧
      (mpOf z ≤ 10 → doyOf z < (153 * (mpOf z + 1) + 2) / 5) := by
  have h := doy_bounds z
  simp only [mpOf]
  omega

theorem monthFirst_eval (E C Y M : Int) (hC : 0 ≤ C ∧ C ≤ 3) (hY : 0 ≤ Y ∧ Y ≤ 99)
    (hM : 0 ≤ M ∧ M ≤ 11) :
    monthFirst (12 * (400 * E + 100 * C + Y) + M) =
      146097 * E + 36524 * C + 365 * Y + Y / 4 + (153 * M + 2) / 5 - 719468 := by
  have h12 : (12 * (400 * E + 100 * C + Y) + M) / 12 = 400 * E + 100 * C + Y := by omega
  have hr12 : (12 * (400 * E + 100 * C + Y) + M) % 12 = M := by omega
  have hq4 : (400 * E + 100 * C + Y) / 4 = 100 * E + 25 * C + Y / 4 := by omega
  have hq100 : (400 * E + 100 * C + Y) / 100 = 4 * E + C := by omega
  have hq400 : (400 * E + 100 * C + Y) / 400 = E := by omega
  simp only [monthFirst]
  rw [h12, hr12, hq4, hq100, hq400]
  ring

theorem monthIdx_lower (z : Int) : monthFirst (monthIdx z) ≤ z := by
  have h1 := doe_bounds z
  have h2 := doc_bounds z
  have h3 := yoc_bounds z
  have h4 := doy_bounds z
  have h5 := mp_bounds z
  have he : monthIdx z = 12 * (400 * eraOf z + 100 * cenOf z + yocOf z) + mpOf z := rfl
  rw [he, monthFirst_eval (eraOf z) (cenOf z) (yocOf z) (mpOf z) ⟨h2.1, h2.2.1⟩
    ⟨h3.1, h3.2.1⟩ ⟨h5.1, h5.2.1⟩]
  omega

theorem monthIdx_upper (z : Int) : z < monthFirst (monthIdx z + 1) := by
  have h1 := doe_bounds z
  have h2 := doc_bounds z
  have h3 := yoc_bounds z
  have h4 := doy_bounds z
  have h5 := mp_bounds z
  have hidx : monthIdx z = 12 * (400 * eraOf z + 100 * cenOf z + yocOf z) + mpOf z := rfl
  by_cases hm : mpOf z ≤ 10
  · have he : monthIdx z + 1 =
        12 * (400 * eraOf z + 100 * cenOf z + yocOf z) + (mpOf z + 1) := by omega
    rw [he, monthFirst_eval (eraOf z) (cenOf z) (yocOf z) (mpOf z + 1) ⟨h2.1, h2.2.1⟩
      ⟨h3.1, h3.2.1⟩ ⟨by omega, by omega⟩]
    omega
  · have hm11 : mpOf z = 11 := by omega
    by_cases hy : yocOf z ≤ 98
    · have he : monthIdx z + 1 =
          12 * (400 * eraOf z + 100 * cenOf z + (yocOf z + 1)) + 0 := by omega
      rw [he, monthFirst_eval (eraOf z) (cenOf z) (yocOf z + 1) 0 ⟨h2.1, h2.2.1⟩
        ⟨by omega, by omega⟩ ⟨by omega, by omega⟩]
      omega
    · have hy99 : yocOf z = 99 := by omega
      by_cases hc : cenOf z ≤ 2
      · have he : monthIdx z + 1 =
            12 * (400 * eraOf z + 100 * (cenOf z + 1) + 0) + 0 := by omega
        rw [he, monthFirst_eval (eraOf z) (cenOf z + 1) 0 0 ⟨by omega, by omega⟩
          ⟨by omega, by omega⟩ ⟨by omega, by omega⟩]
        omega
      · have hc3 : cenOf z = 3 := by omega
        have he : monthIdx z + 1 = 12 * (400 * (eraOf z + 1) + 100 * 0 + 0) + 0 := by omega
        rw [he, monthFirst_eval (eraOf z + 1) 0 0 0 ⟨by omega, by omega⟩
          ⟨by omega, by omega⟩ ⟨by omega, by omega⟩]
        omega

theorem monthFirst_step (k : Int) : monthFirst k ≤ monthFirst (k + 1) := by
  simp only [monthFirst]
  omega

theorem monthFirst_mono (k k' : Int) (h : k ≤ k') : monthFirst k ≤ monthFirst k' := by
  have key : ∀ n : Nat, monthFirst k ≤ monthFirst (k + n) := by
    intro n
    induction n with
    | zero => simp
    | succ m ih =>
      have harg : k + ((m + 1 : Nat) : Int) = (k + m) + 1 := by push_cast; ring
      rw [harg]
      exact le_trans ih (monthFirst_step (k + m))
  obtain ⟨n, rfl⟩ : ∃ n : Nat, k' = k + n := ⟨(k' - k).toNat, by omega⟩
  exact key n

theorem monthIdx_mono (z w : Int) (h : z ≤ w) : monthIdx z ≤ monthIdx w := by
  by_contra hlt
  have h1 : monthIdx w + 1 ≤ monthIdx z := by omega
  have h2 := monthFirst_mono _ _ h1
  have h3 := monthIdx_lower z
  have h4 := monthIdx_upper w
  omega

theorem monthEnd_ge (z : Int) : z ≤ monthEnd z := by
  have h := monthIdx_upper z
  simp only [monthEnd]
  omega

theorem monthEnd_mono (z w : Int) (h : z ≤ w) : monthEnd z ≤ monthEnd w := by
  have h1 := monthIdx_mono z w h
  have h2 := monthFirst_mono (monthIdx z + 1) (monthIdx w + 1) (by omega)
  simp only [monthEnd]
  omega

theorem weeklyKey_ge (z : Int) : z ≤ weeklyKey z := by
  simp only [weeklyKey]
  omega

theorem weeklyKey_mono (z w : Int) (h : z ≤ w) : weeklyKey z ≤ weeklyKey w := by
  simp only [weeklyKey]
  omega

example : daysFromCivil 1970 1 1 = 0 := by decide
example : daysFromCivil 2025 1 5 % 7 = 3 := by decide
example : weeklyKey (daysFromCivil 2025 1 31) = daysFromCivil 2025 2 2 := by decide
example : weeklyKey (daysFromCivil 2025 1 5) = daysFromCivil 2025 1 5 := by decide
example : weeklyKey (daysFromCivil 2025 1 6) = daysFromCivil 2025 1 12 := by decide
example : monthEnd (daysFromCivil 2025 1 15) = daysFromCivil 2025 1 31 := by decide
example : monthEnd (daysFromCivil 2024 2 1) = daysFromCivil 2024 2 29 := by decide
example : monthEnd (daysFromCivil 2023 2 10) = daysFromCivil 2023 2 28 := by decide
example : monthEnd (daysFromCivil 2025 12 31) = daysFromCivil 2025 12 31 := by decide
example : monthEnd (daysFromCivil 2000 2 5) = daysFromCivil 2000 2 29 := by decide
example : monthEnd (daysFromCivil 1900 2 5) = daysFromCivil 1900 2 28 := by decide

theorem round2_zero : round2 0 = 0 := by norm_num [round2]

theorem getVal_eq_none_of_hasKey_false (vs : List (String × ℚ)) (k : String)
    (h : hasKey vs k = false) : getVal vs k = none := by
  induction vs with
  | nil => rfl
  | cons kv rest ih =>
    simp only [hasKey] at h
    simp only [getVal]
    split_ifs with hk
    · rw [if_pos hk] at h; exact absurd h (by simp)
    · rw [if_neg hk] at h; exact ih h

theorem hasKey_true_of_getVal_some (vs : List (String × ℚ)) (k : String) (v : ℚ)
    (h : getVal vs k = some v) : hasKey vs k = true := by
  by_contra hf
  rw [getVal_eq_none_of_hasKey_false vs k (by simpa using hf)] at h
  exact Option.noConfusion h

theorem getVal_append_single (vs : List (String × ℚ)) (k : String) (v : ℚ)
    (h : hasKey vs k = false) :
    getVal (vs ++ [(k, v)]) k = some v := by
  induction vs with
  | nil => simp [getVal]
  | cons kv rest ih =>
    simp only [hasKey] at h
    simp only [List.cons_append, getVal]
    split_ifs with hk
    · rw [if_pos hk] at h; exact absurd h (by simp)
    · rw [if_neg hk] at h; exact ih h

theorem getVal_setKey (vs : List (String × ℚ)) (k : String) (v : ℚ) :
    getVal (setKey vs k v) k = some v := by
  simp only [setKey]
  split_ifs with hany
  · induction vs with
    | nil => simp [hasKey] at hany
    | cons kv rest ih =>
      simp only [hasKey] at hany
      by_cases hk : kv.1 = k
      · simp [getVal, hk]
      · simp only [List.map_cons, if_neg hk]
        simp only [getVal, if_neg hk]
        rw [if_neg hk] at hany
        exact ih hany
  · exact getVal_append_single vs k v (by simpa using hany)

/-- C6: resampling with frequency "daily" returns the input unchanged,
resampling an empty series returns it unchanged, and hence resampling
an already-daily-resampled series with "daily" again is the identity. -/
theorem resample_daily_identity (data : List PricePoint) (frequency : String) :
    resample_data data "daily" = data ∧ resample_data [] frequency = [] ∧
      resample_data (resample_data data "daily") "daily" = resample_data data "daily" := by
  refine ⟨rfl, ?_, rfl⟩
  simp only [resample_data]
  split_ifs <;> rfl

/-- C3: when the weights sum to zero, `calculate_composite` returns the
input series unchanged; no point gains a "Composite" field and no
existing field is modified. -/
theorem zero_weight_noop (data : List PricePoint) (weights : List (String × ℚ))
    (h : totalWeight weights = 0) : calculate_composite data weights = data := by
  simp [calculate_composite, h]

theorem zero_weight_noop_witness :
    totalWeight [("SPY", 0), ("QQQ", 0)] = 0 ∧
      calculate_composite [⟨20090, [("SPY", (100 : ℚ))]⟩] [("SPY", 0), ("QQQ", 0)] =
        [⟨20090, [("SPY", (100 : ℚ))]⟩] :=
  ⟨by norm_num [totalWeight], zero_weight_noop _ _ (by norm_num [totalWeight])⟩

/-- C9: with an empty result set after retrieval, normalization and
resampling, `main` reports and terminates early without writing an
output record, performing no composite computation or serialization;
with a non-empty result set an output record is produced. -/
theorem main_empty_no_output (symbols : List String) (w : Option (List ℚ))
    (start_date end_date : Date) :
    ∀ data : List PricePoint,
      mainOutput symbols w start_date end_date data = none ↔ data = [] := by
  intro data
  simp only [mainOutput]
  split_ifs with h <;> simp [h]

/-- C8: when the end date precedes the start date, the estimated
trading-day count is non-positive, the first branch is taken, and
`calculate_optimal_frequency` returns "daily". -/
theorem frequency_reversed_daily (s e : Date)
    (h : daysFromCivil e.year e.month e.day < daysFromCivil s.year s.month s.day) :
    calculate_optimal_frequency s e 100 = "daily" := by
  simp only [calculate_optimal_frequency, intTrunc]
  split_ifs <;> first | rfl | (exfalso; omega)

theorem frequency_reversed_daily_witness :
    daysFromCivil 2025 1 1 < daysFromCivil 2025 1 31 ∧
      calculate_optimal_frequency ⟨2025, 1, 31⟩ ⟨2025, 1, 1⟩ 100 = "daily" :=
  ⟨by decide, frequency_reversed_daily ⟨2025, 1, 31⟩ ⟨2025, 1, 1⟩ (by decide)⟩

/-- C4: for all date pairs, `calculate_optimal_frequency` with
`max_samples = 100` returns exactly what the spec's description
prescribes (floor of `days * 252/365`, then the daily / weekly /
monthly three-way choice); in particular 2025-01-01 to 2025-01-31
yields "daily" and 2015-01-01 to 2025-01-01 yields "monthly". -/
theorem frequency_selection_spec (s e : Date) :
    calculate_optimal_frequency s e 100 = select_frequency_spec s e 100 ∧
      calculate_optimal_frequency ⟨2025, 1, 1⟩ ⟨2025, 1, 31⟩ 100 = "daily" ∧
      calculate_optimal_frequency ⟨2015, 1, 1⟩ ⟨2025, 1, 1⟩ 100 = "monthly" := by
  refine ⟨?_, ?_, ?_⟩
  · by_cases h0 : (0 : Int) ≤
        (daysFromCivil e.year e.month e.day - daysFromCivil s.year s.month s.day) * 252
    · simp only [calculate_optimal_frequency, select_frequency_spec, intTrunc, if_pos h0]
    · simp only [calculate_optimal_frequency, select_frequency_spec, intTrunc, if_neg h0]
      split_ifs <;> first | rfl | (exfalso; omega)
  · norm_num [calculate_optimal_frequency, intTrunc, daysFromCivil]
  · norm_num [calculate_optimal_frequency, intTrunc, daysFromCivil]

theorem hasKey_eq_isSome (vs : List (String × ℚ)) (k : String) :
    hasKey vs k = (getVal vs k).isSome := by
  induction vs with
  | nil => rfl
  | cons kv rest ih =>
    simp only [hasKey, getVal]
    split_ifs <;> simp [ih]

theorem compositeFold_eq_sum (p : PricePoint) (total : ℚ) (weights : List (String × ℚ))
    (init : ℚ) :
    weights.foldl (fun acc sw =>
      match getVal p.values sw.1 with
      | some v => acc + v * (sw.2 / total)
      | none => acc) init =
    init + ((weights.filter (fun sw => hasKey p.values sw.1)).map
      (fun sw => (getVal p.values sw.1).getD 0 * sw.2 / total)).sum := by
  induction weights generalizing init with
  | nil => simp
  | cons sw rest ih =>
    simp only [List.foldl_cons, List.filter_cons]
    cases hv : getVal p.values sw.1 with
    | none =>
      have hk : hasKey p.values sw.1 = false := by rw [hasKey_eq_isSome, hv]; rfl
      rw [hk]
      simp only [hv, Bool.false_eq_true, if_false]
      exact ih init
    | some v =>
      have hk : hasKey p.values sw.1 = true := by rw [hasKey_eq_isSome, hv]; rfl
      rw [hk]
      simp only [hv, if_true]
      rw [ih (init + v * (sw.2 / total))]
      simp only [List.map_cons, List.sum_cons, hv, Option.getD_some]
      ring

/-- C2: with a positive total weight, `calculate_composite` stores in
each PricePoint, under the "Composite" key, the sum of
`values[symbol] * weights[symbol] / total` over exactly the weighted
symbols present in that point, rounded to 2 decimals. -/
theorem composite_weighted_sum (data : List PricePoint) (weights : List (String × ℚ))
    (h : 0 < totalWeight weights) :
    calculate_composite data weights = data.map (fun p =>
      ⟨p.date, setKey p.values "Composite" (round2
        (((weights.filter (fun sw => hasKey p.values sw.1)).map
          (fun sw => (getVal p.values sw.1).getD 0 * sw.2 / totalWeight weights)).sum))⟩) := by
  have hne : totalWeight weights ≠ 0 := ne_of_gt h
  simp only [calculate_composite, if_neg hne]
  have hfun : addCompositePoint weights (totalWeight weights) = fun p =>
      (⟨p.date, setKey p.values "Composite" (round2
        (((weights.filter (fun sw => hasKey p.values sw.1)).map
          (fun sw => (getVal p.values sw.1).getD 0 * sw.2 / totalWeight weights)).sum))⟩ :
        PricePoint) := by
    funext p
    simp only [addCompositePoint]
    rw [compositeFold_eq_sum, zero_add]
  rw [hfun]

theorem composite_weighted_sum_witness :
    0 < totalWeight [("SPY", 50), ("QQQ", 50)] ∧
      calculate_composite [⟨daysFromCivil 2025 1 2, [("SPY", 100), ("QQQ", 102)]⟩]
          [("SPY", 50), ("QQQ", 50)] =
        [⟨daysFromCivil 2025 1 2, [("SPY", 100), ("QQQ", 102), ("Composite", 101)]⟩] := by
  refine ⟨by norm_num [totalWeight], ?_⟩
  rw [composite_weighted_sum _ _ (by norm_num [totalWeight])]
  norm_num +decide [totalWeight, hasKey, getVal, setKey, round2]

/-- C10: with a positive total weight, `calculate_composite` maps every
point through `addCompositePoint`, which always stores a "Composite"
field; a point containing none of the weighted symbols gets the value
exactly 0. -/
theorem composite_field_always_added (data : List PricePoint) (weights : List (String × ℚ))
    (h : 0 < totalWeight weights) :
    calculate_composite data weights = data.map (addCompositePoint weights (totalWeight weights)) ∧
      ∀ p : PricePoint,
        (∃ c : ℚ, getVal (addCompositePoint weights (totalWeight weights) p).values
          "Composite" = some c) ∧
        ((∀ sw ∈ weights, hasKey p.values sw.1 = false) →
          getVal (addCompositePoint weights (totalWeight weights) p).values
            "Composite" = some 0) := by
  refine ⟨by simp [calculate_composite, ne_of_gt h], fun p => ⟨⟨_, getVal_setKey _ _ _⟩, ?_⟩⟩
  intro hnone
  simp only [addCompositePoint]
  rw [compositeFold_eq_sum]
  rw [List.filter_eq_nil_iff.mpr (fun sw hsw => by simp [hnone sw hsw])]
  rw [show (0 : ℚ) + (List.map _ ([] : List (String × ℚ))).sum = 0 by simp, round2_zero]
  exact getVal_setKey _ _ _

theorem composite_field_always_added_witness :
    0 < totalWeight [("SPY", 50)] ∧
      getVal (addCompositePoint [("SPY", 50)] (totalWeight [("SPY", 50)])
        ⟨daysFromCivil 2025 1 2, [("XYZ", 7)]⟩).values "Composite" = some 0 := by
  refine ⟨by norm_num [totalWeight], ?_⟩
  refine ((composite_field_always_added [] [("SPY", 50)]
    (by norm_num [totalWeight])).2 ⟨daysFromCivil 2025 1 2, [("XYZ", 7)]⟩).2 ?_
  intro sw hsw
  have : sw = ("SPY", (50 : ℚ)) := by simpa using hsw
  subst this
  norm_num +decide [hasKey]

theorem groupByKey_cons (f : Int → Int) (p : PricePoint) (ps : List PricePoint) :
    ∃ g rest, groupByKey f (p :: ps) = (f p.date, g) :: rest := by
  cases hg : groupByKey f ps with
  | nil => exact ⟨[p], [], by simp [groupByKey, hg]⟩
  | cons kg0 rest =>
    obtain ⟨k, g⟩ := kg0
    by_cases hk : f p.date = k
    · exact ⟨p :: g, rest, by simp [groupByKey, hg, if_pos hk]⟩
    · exact ⟨[p], (k, g) :: rest, by simp [groupByKey, hg, if_neg hk]⟩

theorem groupByKey_mem_key (f : Int → Int) (l : List PricePoint) :
    ∀ kg ∈ groupByKey f l, ∃ p ∈ l, kg.1 = f p.date := by
  induction l with
  | nil => intro kg h; simp [groupByKey] at h
  | cons p ps ih =>
    intro kg hkg
    cases hg : groupByKey f ps with
    | nil =>
      simp only [groupByKey, hg, List.mem_singleton] at hkg
      exact ⟨p, by simp, by rw [hkg]⟩
    | cons kg0 rest =>
      obtain ⟨k, g⟩ := kg0
      simp only [groupByKey, hg] at hkg
      split_ifs at hkg with hk
      · rcases List.mem_cons.mp hkg with h1 | h2
        · exact ⟨p, by simp, by rw [h1]⟩
        · obtain ⟨q, hq, hEq⟩ := ih kg (by rw [hg]; exact List.mem_cons_of_mem _ h2)
          exact ⟨q, by simp [hq], hEq⟩
      · rcases List.mem_cons.mp hkg with h1 | h2
        · exact ⟨p, by simp, by rw [h1]⟩
        · obtain ⟨q, hq, hEq⟩ := ih kg (by rw [hg]; exact h2)
          exact ⟨q, by simp [hq], hEq⟩

theorem groupByKey_length_le (f : Int → Int) (l : List PricePoint) :
    (groupByKey f l).length ≤ l.length := by
  induction l with
  | nil => simp [groupByKey]
  | cons p ps ih =>
    cases hg : groupByKey f ps with
    | nil => simp [groupByKey, hg]
    | cons kg0 rest =>
      obtain ⟨k, g⟩ := kg0
      rw [hg] at ih
      simp only [groupByKey, hg]
      split_ifs with hk
      · simp only [List.length_cons] at ih ⊢
        omega
      · simp only [List.length_cons] at ih ⊢
        omega

theorem groupByKey_keys_lt (f : Int → Int) (l : List PricePoint)
    (h : (l.map (fun p => f p.date)).Pairwise (· ≤ ·)) :
    ((groupByKey f l).map Prod.fst).Pairwise (· < ·) := by
  induction l with
  | nil => simp [groupByKey]
  | cons p ps ih =>
    rw [List.map_cons, List.pairwise_cons] at h
    have hp : ∀ q ∈ ps, f p.date ≤ f q.date := by
      intro q hq
      exact h.1 _ (List.mem_map_of_mem _ hq)
    have ihps := ih h.2
    cases hg : groupByKey f ps with
    | nil => simp [groupByKey, hg]
    | cons kg0 rest =>
      obtain ⟨k, g⟩ := kg0
      rw [hg] at ihps
      have hkmem : ∃ q ∈ ps, k = f q.date := by
        have := groupByKey_mem_key f ps (k, g) (by rw [hg]; simp)
        simpa using this
      simp only [groupByKey, hg]
      split_ifs with hk
      · simpa [hk] using ihps
      · simp only [List.map_cons]
        rw [List.map_cons] at ihps
        refine List.pairwise_cons.mpr ⟨?_, ihps⟩
        intro b hb
        obtain ⟨q, hq, hkq⟩ := hkmem
        have hpk : f p.date < k := lt_of_le_of_ne (hkq ▸ hp q hq) hk
        rcases List.mem_cons.mp hb with rfl | hbr
        · exact hpk
        · exact lt_trans hpk ((List.pairwise_cons.mp ihps).1 b hbr)

theorem groupByKey_filter (f : Int → Int) (l : List PricePoint)
    (h : (l.map (fun p => f p.date)).Pairwise (· ≤ ·)) :
    ∀ kg ∈ groupByKey f l, kg.2 = l.filter (fun p => f p.date = kg.1) := by
  induction l with
  | nil => intro kg hkg; simp [groupByKey] at hkg
  | cons p ps ih =>
    rw [List.map_cons, List.pairwise_cons] at h
    have hp : ∀ q ∈ ps, f p.date ≤ f q.date := by
      intro q hq
      exact h.1 _ (List.mem_map_of_mem _ hq)
    have ihps := ih h.2
    intro kg hkg
    cases hg : groupByKey f ps with
    | nil =>
      have hpsnil : ps = [] := by
        cases ps with
        | nil => rfl
        | cons q qs =>
          obtain ⟨g', rest', hg'⟩ := groupByKey_cons f q qs
          rw [hg'] at hg
          exact absurd hg (by simp)
      subst hpsnil
      simp only [groupByKey, List.mem_singleton] at hkg
      rw [hkg]
      simp
    | cons kg0 rest =>
      obtain ⟨k, g⟩ := kg0
      simp only [groupByKey, hg] at hkg
      obtain ⟨q, qs, rfl⟩ : ∃ q qs, ps = q :: qs := by
        cases ps with
        | nil => simp [groupByKey] at hg
        | cons q qs => exact ⟨q, qs, rfl⟩
      have hk_eq : k = f q.date := by
        obtain ⟨g', rest', hg'⟩ := groupByKey_cons f q qs
        rw [hg'] at hg
        injection hg with hhead _
        exact (congrArg Prod.fst hhead).symm
      have hqq : ∀ r ∈ qs, f q.date ≤ f r.date := by
        have h2 := h.2
        rw [List.map_cons, List.pairwise_cons] at h2
        intro r hr
        exact h2.1 _ (List.mem_map_of_mem _ hr)
      have hkle : ∀ r ∈ q :: qs, k ≤ f r.date := by
        intro r hr
        rcases List.mem_cons.mp hr with rfl | hrq
        · exact le_of_eq hk_eq
        · rw [hk_eq]
          exact hqq r hrq
      have hkeys := groupByKey_keys_lt f (q :: qs) h.2
      rw [hg, List.map_cons] at hkeys
      split_ifs at hkg with hpk
      · rcases List.mem_cons.mp hkg with rfl | hmem
        · rw [List.filter_cons, if_pos (by simp)]
          have hthis := ihps (k, g) (by rw [hg]; simp)
          simp only at hthis
          rw [hpk, ← hthis]
        · have hkg2 := ihps kg (by rw [hg]; exact List.mem_cons_of_mem _ hmem)
          have hklt : k < kg.1 :=
            (List.pairwise_cons.mp hkeys).1 kg.1 (List.mem_map_of_mem _ hmem)
          rw [List.filter_cons, if_neg (by simp; omega)]
          exact hkg2
      · rcases List.mem_cons.mp hkg with rfl | hmem
        · rw [List.filter_cons, if_pos (by simp)]
          have hfilnil : List.filter (fun r => decide (f r.date = f p.date)) (q :: qs) = [] := by
            refine List.filter_eq_nil_iff.mpr ?_
            intro r hr
            have h1 : k ≤ f r.date := hkle r hr
            have h2 : f p.date < k := lt_of_le_of_ne (hk_eq ▸ hp q (by simp)) hpk
            simp
            omega
          rw [hfilnil]
        · have hkg2 := ihps kg (by rw [hg]; exact hmem)
          have hkge : k ≤ kg.1 := by
            rcases List.mem_cons.mp hmem with rfl | hmem2
            · simp
            · exact le_of_lt ((List.pairwise_cons.mp hkeys).1 kg.1
                (List.mem_map_of_mem _ hmem2))
          have h2 : f p.date < k := lt_of_le_of_ne (hk_eq ▸ hp q (by simp)) hpk
          rw [List.filter_cons, if_neg (by simp; omega)]
          exact hkg2

theorem resample_data_weekly (data : List PricePoint) :
    resample_data data "weekly" = resampleWith weeklyKey data := by
  cases data with
  | nil => rfl
  | cons p ps => simp [resample_data]

theorem resample_data_monthly (data : List PricePoint) :
    resample_data data "monthly" = resampleWith monthEnd data := by
  cases data with
  | nil => rfl
  | cons p ps => simp [resample_data]

theorem filterMap_dates_sublist (F : Int × List PricePoint → Option PricePoint)
    (hF : ∀ kg r, F kg = some r → r.date = kg.1) (G : List (Int × List PricePoint)) :
    ((G.filterMap F).map (fun p => p.date)).Sublist (G.map Prod.fst) := by
  induction G with
  | nil => simp
  | cons kg rest ih =>
    rw [List.filterMap_cons]
    cases hFkg : F kg with
    | none => exact ih.cons _
    | some r =>
      rw [List.map_cons, List.map_cons, hF kg r hFkg]
      exact ih.cons₂ _

theorem resampleWith_row_date (data : List PricePoint) (kg r)
    (h : (fun kg : Int × List PricePoint =>
      let vals := (columnsOf data).filterMap (fun c =>
        (lastVal kg.2 c).map (fun v => (c, round2 v)))
      if vals = [] then none else some (⟨kg.1, vals⟩ : PricePoint)) kg = some r) :
    r.date = kg.1 := by
  simp only at h
  split_ifs at h
  injection h with h1
  rw [← h1]

theorem resampleWith_mem (f : Int → Int) (data : List PricePoint) (r : PricePoint)
    (hr : r ∈ resampleWith f data) : ∃ q ∈ data, r.date = f q.date := by
  simp only [resampleWith] at hr
  rw [List.mem_filterMap] at hr
  obtain ⟨kg, hkg, hF⟩ := hr
  have hdate := resampleWith_row_date data kg r hF
  obtain ⟨q, hq, hk⟩ := groupByKey_mem_key f data kg hkg
  exact ⟨q, hq, by rw [hdate, hk]⟩

theorem lastValAux (c : String) (g : List PricePoint) :
    ∀ init : Option ℚ, g.foldl (fun acc p =>
      match getVal p.values c with
      | some v => some v
      | none => acc) init =
      match g.reverse.findSome? (fun p => getVal p.values c) with
      | some v => some v
      | none => init := by
  induction g with
  | nil => intro init; simp
  | cons p g ih =>
    intro init
    rw [List.foldl_cons, ih, List.reverse_cons, List.findSome?_append]
    cases hrev : g.reverse.findSome? (fun p => getVal p.values c) with
    | some v => simp
    | none =>
      cases hv : getVal p.values c <;>
        simp [List.findSome?_cons, hv, Option.none_or]

theorem lastVal_eq_findSome (g : List PricePoint) (c : String) :
    lastVal g c = g.reverse.findSome? (fun p => getVal p.values c) := by
  rw [lastVal, lastValAux]
  cases g.reverse.findSome? (fun p => getVal p.values c) <;> rfl

/-- C7 (amended): for a date-sorted series, the output dates of the
monthly resample are strictly increasing and each is the calendar
month-end of some input date, and both the monthly and the weekly
resample have at most as many rows as the original series.  The
claim's further assertion that the monthly row count is at most the
weekly row count is false on the code; see the counterexample. -/
theorem resample_monthly_shape (data : List PricePoint)
    (hs : (data.map (fun p => p.date)).Pairwise (· < ·)) :
    ((resample_data data "monthly").map (fun p => p.date)).Pairwise (· < ·) ∧
      (∀ r ∈ resample_data data "monthly", ∃ q ∈ data, r.date = monthEnd q.date) ∧
      (resample_data data "monthly").length ≤ data.length ∧
      (resample_data data "weekly").length ≤ data.length := by
  rw [resample_data_monthly, resample_data_weekly]
  have hmono : (data.map (fun p => monthEnd p.date)).Pairwise (· ≤ ·) := by
    have := hs.map monthEnd (fun a b hab => monthEnd_mono a b (le_of_lt hab))
    rw [List.map_map] at this
    exact this
  have hkeysM := groupByKey_keys_lt monthEnd data hmono
  refine ⟨?_, ?_, ?_, ?_⟩
  · exact hkeysM.sublist
      (filterMap_dates_sublist _ (resampleWith_row_date data) _)
  · intro r hr
    exact resampleWith_mem monthEnd data r hr
  · exact le_trans (List.length_filterMap_le _ _) (groupByKey_length_le monthEnd data)
  · exact le_trans (List.length_filterMap_le _ _) (groupByKey_length_le weeklyKey data)

theorem resample_monthly_shape_witness :
    (([⟨daysFromCivil 2025 1 31, [("SPY", (100 : ℚ))]⟩,
        ⟨daysFromCivil 2025 2 1, [("SPY", (101 : ℚ))]⟩] : List PricePoint).map
      (fun p => p.date)).Pairwise (· < ·) ∧
      (resample_data [⟨daysFromCivil 2025 1 31, [("SPY", (100 : ℚ))]⟩,
        ⟨daysFromCivil 2025 2 1, [("SPY", (101 : ℚ))]⟩] "monthly").length ≤
        ([⟨daysFromCivil 2025 1 31, [("SPY", (100 : ℚ))]⟩,
          ⟨daysFromCivil 2025 2 1, [("SPY", (101 : ℚ))]⟩] : List PricePoint).length :=
  ⟨by decide, (resample_monthly_shape _ (by decide)).2.2.1⟩

/-- C7 counterexample: 2025-01-31 (Friday) and 2025-02-01 (Saturday)
fall in one weekly bucket (week ending Sunday 2025-02-02) but in two
different calendar months, so the monthly resample has two rows while
the weekly resample has one: the monthly row count exceeds the weekly
row count, refuting the claimed chain of count inequalities. -/
theorem resample_count_counterexample :
    (resample_data [⟨daysFromCivil 2025 1 31, [("SPY", (100 : ℚ))]⟩,
        ⟨daysFromCivil 2025 2 1, [("SPY", (101 : ℚ))]⟩] "weekly").length = 1 ∧
      (resample_data [⟨daysFromCivil 2025 1 31, [("SPY", (100 : ℚ))]⟩,
        ⟨daysFromCivil 2025 2 1, [("SPY", (101 : ℚ))]⟩] "monthly").length = 2 ∧
      ¬ ((resample_data [⟨daysFromCivil 2025 1 31, [("SPY", (100 : ℚ))]⟩,
          ⟨daysFromCivil 2025 2 1, [("SPY", (101 : ℚ))]⟩] "monthly").length ≤
        (resample_data [⟨daysFromCivil 2025 1 31, [("SPY", (100 : ℚ))]⟩,
          ⟨daysFromCivil 2025 2 1, [("SPY", (101 : ℚ))]⟩] "weekly").length) := by
  refine ⟨?_, ?_, ?_⟩ <;>
    norm_num +decide [resample_data, resampleWith, groupByKey, columnsOf, insertNew,
      lastVal, getVal, weeklyKey]

/-- C1 (amended): for a date-sorted series, the weekly (and monthly)
buckets of `resample_data` are exactly the sets of rows sharing a
week-end (month-end) key, and each output row holds, for every symbol,
the rounded value of the chronologically last row of the bucket that
has a value for that symbol (pandas `.last()` takes the last
non-missing value per column, so an earlier row's value IS carried
forward when the bucket's last row lacks that symbol); a symbol with
no value anywhere in the bucket is absent from the output row. -/
theorem resample_weekly_last_per_symbol (data : List PricePoint)
    (hs : (data.map (fun p => p.date)).Pairwise (· < ·)) :
    (∀ kg ∈ groupByKey weeklyKey data,
        kg.2 = data.filter (fun p => weeklyKey p.date = kg.1)) ∧
      resample_data data "weekly" = (groupByKey weeklyKey data).filterMap (fun kg =>
        let vals := (columnsOf data).filterMap (fun c =>
          (kg.2.reverse.findSome? (fun p => getVal p.values c)).map
            (fun v => (c, round2 v)))
        if vals = [] then none else some ⟨kg.1, vals⟩) ∧
      (∀ kg ∈ groupByKey monthEnd data,
        kg.2 = data.filter (fun p => monthEnd p.date = kg.1)) ∧
      resample_data data "monthly" = (groupByKey monthEnd data).filterMap (fun kg =>
        let vals := (columnsOf data).filterMap (fun c =>
          (kg.2.reverse.findSome? (fun p => getVal p.values c)).map
            (fun v => (c, round2 v)))
        if vals = [] then none else some ⟨kg.1, vals⟩) := by
  have hmonoW : (data.map (fun p => weeklyKey p.date)).Pairwise (· ≤ ·) := by
    have := hs.map weeklyKey (fun a b hab => weeklyKey_mono a b (le_of_lt hab))
    rw [List.map_map] at this
    exact this
  have hmonoM : (data.map (fun p => monthEnd p.date)).Pairwise (· ≤ ·) := by
    have := hs.map monthEnd (fun a b hab => monthEnd_mono a b (le_of_lt hab))
    rw [List.map_map] at this
    exact this
  refine ⟨groupByKey_filter weeklyKey data hmonoW, ?_,
    groupByKey_filter monthEnd data hmonoM, ?_⟩
  · rw [resample_data_weekly]
    simp only [resampleWith, lastVal_eq_findSome]
  · rw [resample_data_monthly]
    simp only [resampleWith, lastVal_eq_findSome]

theorem resample_weekly_last_per_symbol_witness :
    (([⟨daysFromCivil 2025 1 6, [("A", (1 : ℚ)), ("X", 5)]⟩,
        ⟨daysFromCivil 2025 1 7, [("A", (2 : ℚ))]⟩] : List PricePoint).map
      (fun p => p.date)).Pairwise (· < ·) ∧
      resample_data [⟨daysFromCivil 2025 1 6, [("A", (1 : ℚ)), ("X", 5)]⟩,
          ⟨daysFromCivil 2025 1 7, [("A", (2 : ℚ))]⟩] "weekly" =
        (groupByKey weeklyKey [⟨daysFromCivil 2025 1 6, [("A", (1 : ℚ)), ("X", 5)]⟩,
          ⟨daysFromCivil 2025 1 7, [("A", (2 : ℚ))]⟩]).filterMap (fun kg =>
          let vals := (columnsOf [⟨daysFromCivil 2025 1 6, [("A", (1 : ℚ)), ("X", 5)]⟩,
            ⟨daysFromCivil 2025 1 7, [("A", (2 : ℚ))]⟩]).filterMap (fun c =>
            (kg.2.reverse.findSome? (fun p => getVal p.values c)).map
              (fun v => (c, round2 v)))
          if vals = [] then none else some ⟨kg.1, vals⟩) :=
  ⟨by decide, (resample_weekly_last_per_symbol _ (by decide)).2.1⟩

/-- C1 counterexample: the rows 2025-01-06 `{A:1, X:5}` and 2025-01-07
`{A:2}` share one weekly bucket whose chronologically last row has no
value for "X", yet the resampled row still contains `X = 5`, the value
of the earlier row: the earlier value IS carried forward, refuting the
claimed true last-row snapshot. -/
theorem resample_last_row_counterexample :
    resample_data [⟨daysFromCivil 2025 1 6, [("A", (1 : ℚ)), ("X", 5)]⟩,
        ⟨daysFromCivil 2025 1 7, [("A", (2 : ℚ))]⟩] "weekly" =
      [⟨daysFromCivil 2025 1 12, [("A", 2), ("X", 5)]⟩] ∧
      (([⟨daysFromCivil 2025 1 6, [("A", (1 : ℚ)), ("X", 5)]⟩,
          ⟨daysFromCivil 2025 1 7, [("A", (2 : ℚ))]⟩] : List PricePoint).getLast?).map
        (fun p => getVal p.values "X") = some none := by
  constructor
  · norm_num +decide [resample_data, resampleWith, groupByKey, columnsOf, insertNew,
      lastVal, getVal, weeklyKey, round2, daysFromCivil,
      List.filterMap_cons, List.foldl_cons, List.foldl_nil]
  · norm_num +decide [getVal]

/-- C5 (code behavior at the failing input): with symbols ["A", "B"],
where "A" has a missing close on date 1 and close 5 on date 2 while
"B" has closes 10 and 20 on dates 1 and 2, the output rows are aligned
to "A"'s retained dates (the first normalized column assigned to the
empty DataFrame fixes its index), so "B"'s date-1 row is dropped and
"B"'s first retained output value is 200.00 rather than 100.00, even
though "B" has a non-missing close on date 1. -/
theorem normalize_alignment_bug :
    normalize_data ["A", "B"]
        [("A", [(1, none), (2, some 5)]), ("B", [(1, some 10), (2, some 20)])] =
      [⟨2, [("A", 100), ("B", 200)]⟩] := by
  norm_num +decide [normalize_data, normCols, dropna, colAt, rawCol, normCol, round2,
    List.filterMap_cons, List.foldl_cons, List.foldl_nil]

example : round2 (1 / 3) = 33 / 100 := by norm_num [round2]
example : round2 (1 / 8) = 3 / 25 := by norm_num [round2]
example : round2 (3 / 8) = 19 / 50 := by norm_num [round2]
example : round2 101 = 101 := by norm_num [round2]
example : round2 0 = 0 := by norm_num [round2]

end FetchData
